import Mathlib

/-!
Shallow embedding of `src/bam/pileup.rs` from rust-htslib: the safety wrapper
over htslib's pileup engine (`bam_plp_t`).

Machine integers are modelled as `Int` (i32 values, two's complement wrap made
explicit via `% 2^32`) and `Nat` (u32 values).  The engine (`bam_plp_auto`,
`bam_plp_set_maxcnt`, `bam_plp_reset`, `bam_plp_destroy`) is external: one call
to `bam_plp_auto` is modelled by an `EngineOut` record holding the returned
column pointer (the list of `bam_pileup1_t` records it points to, or `none` for
null) and the three `i32` values written into the output slots.  Calls into the
engine are recorded as an `EngineCall` trace.
-/

namespace RustHtslib

/-- The Rust `v as u32` cast of an i32 value: reinterpretation modulo `2^32`
(always non-negative). -/
def toU32 (v : Int) : Nat := (v % 4294967296).toNat

/-- The Rust `n as i32` cast of a u32 value: reinterpretation modulo `2^32`
into the signed range. -/
def toI32 (n : Nat) : Int :=
  if (n % 4294967296) < 2147483648 then ((n % 4294967296 : Nat) : Int)
  else ((n % 4294967296 : Nat) : Int) - 4294967296

/-- The i32 range. -/
def i32Wf (v : Int) : Prop := -2147483648 ≤ v ∧ v < 2147483648

instance (v : Int) : Decidable (i32Wf v) :=
  inferInstanceAs (Decidable (-2147483648 ≤ v ∧ v < 2147483648))

/-- One `htslib::bam_pileup1_t` record, with the fields the wrapper reads:
the raw record pointer `b` (opaque, modelled as an id), `qpos : i32` and
`indel : i32`. -/
structure Pileup1 where
  b : Nat
  qpos : Int
  indel : Int
deriving DecidableEq

/-- `Alignment<'a>`: a borrowed view over one `bam_pileup1_t` record. -/
structure Alignment where
  inner : Pileup1
deriving DecidableEq

/-- `Alignment::new`. -/
def Alignment.new (inner : Pileup1) : Alignment := ⟨inner⟩

/-- `Alignment::qpos`: `self.inner.qpos as usize` (i32 sign-extended then
reinterpreted as a 64-bit usize). -/
def Alignment.qpos (a : Alignment) : Nat := (a.inner.qpos % 18446744073709551616).toNat

/-- The `Indel` enum. -/
inductive Indel where
  | Ins (len : Nat)
  | Del (len : Nat)
  | None
deriving DecidableEq

/-- `Alignment::indel`:
`match self.inner.indel { len if len < 0 => Del(-len as u32), len if len > 0 => Ins(len as u32), _ => None }`.
The negation `-len` wraps in i32 (release semantics), so `-len as u32` is
`(-len) mod 2^32`, which `toU32 (-len)` computes. -/
def Alignment.indel (a : Alignment) : Indel :=
  if a.inner.indel < 0 then Indel.Del (toU32 (-a.inner.indel))
  else if a.inner.indel > 0 then Indel.Ins (toU32 a.inner.indel)
  else Indel.None

/-- `Pileup`: one pileup column.  `inner` is the engine-owned record array the
raw pointer denotes; `depth`, `tid`, `pos` are the u32 fields. -/
structure Pileup where
  inner : List Pileup1
  depth : Nat
  tid : Nat
  pos : Nat
deriving DecidableEq

/-- `Pileup::inner` (private method): `slice::from_raw_parts(self.inner, self.depth)` —
the first `depth` records at the pointer. -/
def Pileup.innerSlice (p : Pileup) : List Pileup1 := p.inner.take p.depth

/-- `Pileup::alignments`: `self.inner().iter().map(Alignment::new)`. -/
def Pileup.alignments (p : Pileup) : List Alignment := p.innerSlice.map Alignment.new

/-- The `PileupError` enum from the `quick_error!` block: its sole variant
`Some` ("error generating pileup"). -/
inductive PileupError where
  | Some
deriving DecidableEq

/-- What one call to `htslib::bam_plp_auto` produced: the returned column
pointer (`none` = null, `some recs` = pointer to the record array `recs`) and
the i32 values written into the `tid`, `pos`, `depth` output slots. -/
structure EngineOut where
  ptr : Option (List Pileup1)
  tid : Int
  pos : Int
  depth : Int
deriving DecidableEq

/-- The i32 well-formedness of an engine output (all three slots in range). -/
def EngineOut.wf (e : EngineOut) : Prop := i32Wf e.tid ∧ i32Wf e.pos ∧ i32Wf e.depth

instance (e : EngineOut) : Decidable (e.wf) :=
  inferInstanceAs (Decidable (i32Wf e.tid ∧ i32Wf e.pos ∧ i32Wf e.depth))

/-- The `Pileup` that `Pileups::next` builds from a non-null engine output:
`Pileup { inner, depth: depth as u32, tid: tid as u32, pos: pos as u32 }`. -/
def pileupOf (e : EngineOut) : Pileup :=
  { inner := e.ptr.getD [], depth := toU32 e.depth, tid := toU32 e.tid, pos := toU32 e.pos }

/-- `<Pileups as Iterator>::next`, as a function of the engine's response to
the single `bam_plp_auto` call it makes:
`match inner.is_null() { true if depth == -1 => Some(Err(..)), true => None, false => Some(Ok(Pileup{..})) }`. -/
def Pileups.next (e : EngineOut) : Option (Except PileupError Pileup) :=
  match e.ptr with
  | some recs =>
      some (Except.ok { inner := recs, depth := toU32 e.depth, tid := toU32 e.tid, pos := toU32 e.pos })
  | none => if e.depth = -1 then some (Except.error PileupError.Some) else none

/-- The wrapper keeps no iteration state of its own: pull `i` of a traversal
whose engine responses are `script` yields `Pileups.next` of response `i`,
each pull making exactly one `bam_plp_auto` call. -/
def pullsOut (script : List EngineOut) : List (Option (Except PileupError Pileup)) :=
  script.map Pileups.next

/-- A call into the engine, for recording traces. -/
inductive EngineCall where
  | auto
  | reset
  | destroy
  | setMaxCnt (v : Int)
deriving DecidableEq

/-- `Pileups`: holds the opaque `bam_plp_t` handle. -/
structure Pileups where
  itr : Nat
deriving DecidableEq

/-- `Pileups::set_max_depth`: `bam_plp_set_maxcnt(self.itr, depth as i32)` —
returns the (unchanged) wrapper state and the engine call made. -/
def Pileups.set_max_depth (s : Pileups) (depth : Nat) : Pileups × List EngineCall :=
  (s, [EngineCall.setMaxCnt (toI32 depth)])

/-- `<Pileups as Drop>::drop`: `bam_plp_reset(self.itr); bam_plp_destroy(self.itr);`. -/
def pileupsDrop : List EngineCall := [EngineCall.reset, EngineCall.destroy]

/-- The trace of engine calls made by `m` pulls (`Pileups::next` makes exactly
one `bam_plp_auto` call each). -/
def pullTrace (m : Nat) : List EngineCall := List.replicate m EngineCall.auto

/-- The full engine-call trace of a traversal that performs `m` pulls and then
leaves scope (by any path), Rust running `drop` exactly once at scope exit. -/
def runTrace (m : Nat) : List EngineCall := pullTrace m ++ pileupsDrop

/-- Lexicographic non-decreasing order on (tid, pos) pairs of Ints. -/
def pairLeInt (x y : Int × Int) : Prop := x.1 < y.1 ∨ (x.1 = y.1 ∧ x.2 ≤ y.2)

/-- Lexicographic non-decreasing order on (tid, pos) pairs of Nats. -/
def pairLeNat (x y : Nat × Nat) : Prop := x.1 < y.1 ∨ (x.1 = y.1 ∧ x.2 ≤ y.2)

instance : DecidableRel pairLeInt := fun x y =>
  inferInstanceAs (Decidable (x.1 < y.1 ∨ (x.1 = y.1 ∧ x.2 ≤ y.2)))

instance : DecidableRel pairLeNat := fun x y =>
  inferInstanceAs (Decidable (x.1 < y.1 ∨ (x.1 = y.1 ∧ x.2 ≤ y.2)))

lemma toU32_of_nonneg (v : Int) (h0 : 0 ≤ v) (h1 : v < 4294967296) : toU32 v = v.toNat := by
  unfold toU32; omega

lemma next_of_ptr_some (e : EngineOut) (recs : List Pileup1) (h : e.ptr = some recs) :
    Pileups.next e = some (Except.ok (pileupOf e)) := by
  unfold Pileups.next pileupOf
  rw [h]
  rfl

lemma next_of_ptr_ne_none (e : EngineOut) (h : e.ptr ≠ none) :
    Pileups.next e = some (Except.ok (pileupOf e)) := by
  cases hp : e.ptr with
  | none => exact absurd hp h
  | some recs => exact next_of_ptr_some e recs hp

lemma map_next_of_ptr_ne_none (l : List EngineOut) (h : ∀ e ∈ l, e.ptr ≠ none) :
    l.map Pileups.next = l.map (fun e => some (Except.ok (pileupOf e))) := by
  induction l with
  | nil => rfl
  | cons a t ih =>
    simp only [List.map_cons]
    rw [next_of_ptr_ne_none a (h a (List.mem_cons_self a t)),
      ih (fun e he => h e (List.mem_cons_of_mem a he))]

lemma chain_pairLe_toU32 (l : List EngineOut)
    (hwf : ∀ e ∈ l, 0 ≤ e.tid ∧ e.tid < 4294967296 ∧ 0 ≤ e.pos ∧ e.pos < 4294967296)
    (h : List.Chain' pairLeInt (l.map (fun e => (e.tid, e.pos)))) :
    List.Chain' pairLeNat (l.map (fun e => (toU32 e.tid, toU32 e.pos))) := by
  induction l with
  | nil => simp
  | cons a t ih =>
    cases t with
    | nil => simp
    | cons b t2 =>
      simp only [List.map_cons, List.chain'_cons] at h ⊢
      refine ⟨?_, ?_⟩
      · have ha := hwf a (List.mem_cons_self a (b :: t2))
        have hb := hwf b (List.mem_cons_of_mem a (List.mem_cons_self b t2))
        have hab := h.1
        unfold pairLeInt at hab
        unfold pairLeNat toU32
        simp only at hab ⊢
        omega
      · have := ih (fun e he => hwf e (List.mem_cons_of_mem a he)) h.2
        simpa using this

/-- C1: each call to `Pileups::next` is decided by the engine's returned
pointer and the depth slot: a non-null pointer yields `Ok(Pileup)` whose
`tid()`, `pos()` and `depth()` equal the three slot values (the engine writing
in-range non-negative values) and whose record array is the returned pointer;
a null pointer with depth exactly `-1` yields `Some(Err(PileupError))`;
a null pointer with any other depth yields `None`. -/
theorem C1_next_outcome (e : EngineOut) :
    (∀ recs, e.ptr = some recs →
      0 ≤ e.tid → e.tid < 4294967296 → 0 ≤ e.pos → e.pos < 4294967296 →
      0 ≤ e.depth → e.depth < 4294967296 →
      Pileups.next e =
        some (Except.ok
          { inner := recs, depth := e.depth.toNat, tid := e.tid.toNat, pos := e.pos.toNat })) ∧
    (e.ptr = none → e.depth = -1 → Pileups.next e = some (Except.error PileupError.Some)) ∧
    (e.ptr = none → e.depth ≠ -1 → Pileups.next e = none) := by
  refine ⟨?_, ?_, ?_⟩
  · intro recs hp ht0 ht1 hp0 hp1 hd0 hd1
    rw [next_of_ptr_some e recs hp]
    unfold pileupOf
    rw [hp, toU32_of_nonneg e.tid ht0 ht1, toU32_of_nonneg e.pos hp0 hp1,
      toU32_of_nonneg e.depth hd0 hd1]
    rfl
  · intro hp hd
    unfold Pileups.next
    rw [hp]
    simp [hd]
  · intro hp hd
    unfold Pileups.next
    rw [hp]
    simp [hd]

theorem C1_next_outcome_witness :
    Pileups.next ⟨some [⟨7, 3, 0⟩], 1, 100, 2⟩ =
      some (Except.ok { inner := [⟨7, 3, 0⟩], depth := 2, tid := 1, pos := 100 }) :=
  (C1_next_outcome ⟨some [⟨7, 3, 0⟩], 1, 100, 2⟩).1 [⟨7, 3, 0⟩] rfl
    (by decide) (by decide) (by decide) (by decide) (by decide) (by decide)

/-- C4: `Alignment::indel` is a total mapping of the record's signed 32-bit
`indel` value: negative inputs give `Del` with magnitude the input's absolute
value, positive inputs give `Ins` with the input as magnitude, zero gives
`None`; in particular `-5 ↦ Del 5`, `7 ↦ Ins 7`, `0 ↦ None`, `-1 ↦ Del 1`,
`1 ↦ Ins 1`. -/
theorem C4_indel_total (a : Alignment)
    (h0 : -2147483648 ≤ a.inner.indel) (h1 : a.inner.indel < 2147483648) :
    (a.inner.indel < 0 → a.indel = Indel.Del a.inner.indel.natAbs) ∧
    (0 < a.inner.indel → a.indel = Indel.Ins a.inner.indel.natAbs) ∧
    (a.inner.indel = 0 → a.indel = Indel.None) ∧
    Alignment.indel ⟨⟨0, 0, -5⟩⟩ = Indel.Del 5 ∧
    Alignment.indel ⟨⟨0, 0, 7⟩⟩ = Indel.Ins 7 ∧
    Alignment.indel ⟨⟨0, 0, 0⟩⟩ = Indel.None ∧
    Alignment.indel ⟨⟨0, 0, -1⟩⟩ = Indel.Del 1 ∧
    Alignment.indel ⟨⟨0, 0, 1⟩⟩ = Indel.Ins 1 := by
  refine ⟨?_, ?_, ?_, by decide, by decide, by decide, by decide, by decide⟩
  · intro h
    unfold Alignment.indel
    rw [if_pos h]
    congr 1
    unfold toU32
    omega
  · intro h
    unfold Alignment.indel
    rw [if_neg (by omega), if_pos h]
    congr 1
    unfold toU32
    omega
  · intro h
    unfold Alignment.indel
    rw [if_neg (by omega), if_neg (by omega)]

theorem C4_indel_total_witness :
    Alignment.indel ⟨⟨0, 0, -5⟩⟩ = Indel.Del 5 :=
  (C4_indel_total ⟨⟨0, 0, -5⟩⟩ (by decide) (by decide)).2.2.2.1

/-- C10: over the i32 range, `Alignment::indel` returns `Indel.None` iff the
input is zero, every `Ins n` or `Del n` it returns has `n ≥ 1`, and at the
boundary `-2^31` (where two's-complement negation wraps) it returns
`Del (2^31)`, which equals the input's magnitude. -/
theorem C10_indel_boundary (a : Alignment)
    (h0 : -2147483648 ≤ a.inner.indel) (h1 : a.inner.indel < 2147483648) :
    (a.indel = Indel.None ↔ a.inner.indel = 0) ∧
    (∀ n, a.indel = Indel.Ins n → 1 ≤ n) ∧
    (∀ n, a.indel = Indel.Del n → 1 ≤ n) ∧
    Alignment.indel ⟨⟨0, 0, -2147483648⟩⟩ = Indel.Del 2147483648 ∧
    Int.natAbs (-2147483648) = 2147483648 := by
  refine ⟨?_, ?_, ?_, by decide, by decide⟩
  · unfold Alignment.indel
    split_ifs with hlt hgt
    · exact ⟨fun h => h.elim, fun h => absurd h (by omega)⟩
    · exact ⟨fun h => h.elim, fun h => absurd h (by omega)⟩
    · exact ⟨fun _ => by omega, fun _ => by trivial⟩
  · intro n h
    unfold Alignment.indel at h
    split_ifs at h with hlt hgt
    have hn : toU32 a.inner.indel = n := by injection h
    unfold toU32 at hn
    omega
  · intro n h
    unfold Alignment.indel at h
    split_ifs at h with hlt hgt
    have hn : toU32 (-a.inner.indel) = n := by injection h
    unfold toU32 at hn
    omega

theorem C10_indel_boundary_witness :
    Alignment.indel ⟨⟨0, 0, -2147483648⟩⟩ = Indel.Del 2147483648 :=
  (C10_indel_boundary ⟨⟨0, 0, -2147483648⟩⟩ (by decide) (by decide)).2.2.2.1

/-- C5: for a column whose engine-provided record array has length `depth`
(the engine's contract), `alignments()` yields exactly `depth()` elements,
each the `Alignment` projection of the corresponding record. -/
theorem C5_alignments_depth (p : Pileup) (h : p.inner.length = p.depth) :
    p.alignments.length = p.depth ∧ p.alignments = p.inner.map Alignment.new := by
  unfold Pileup.alignments Pileup.innerSlice
  rw [← h, List.take_length]
  exact ⟨by simp, rfl⟩

theorem C5_alignments_depth_witness :
    (Pileup.alignments ⟨[⟨1, 0, 0⟩, ⟨2, 0, 0⟩, ⟨3, 0, 0⟩], 3, 0, 0⟩).length = 3 ∧
    Pileup.alignments ⟨[⟨1, 0, 0⟩, ⟨2, 0, 0⟩, ⟨3, 0, 0⟩], 3, 0, 0⟩ =
      [Alignment.new ⟨1, 0, 0⟩, Alignment.new ⟨2, 0, 0⟩, Alignment.new ⟨3, 0, 0⟩] :=
  C5_alignments_depth ⟨[⟨1, 0, 0⟩, ⟨2, 0, 0⟩, ⟨3, 0, 0⟩], 3, 0, 0⟩ rfl

/-- C8: the depth sentinel is examined only in the null-pointer branch: a
non-null pointer always yields `Ok`, whatever the depth slot holds; in
particular depth slot `-1` with a non-null pointer yields a column whose
`depth()` is `2^32 - 1`. -/
theorem C8_nonnull_ignores_sentinel (e : EngineOut) (recs : List Pileup1)
    (h : e.ptr = some recs) :
    Pileups.next e = some (Except.ok (pileupOf e)) ∧
    (e.depth = -1 → (pileupOf e).depth = 4294967295) := by
  refine ⟨next_of_ptr_some e recs h, ?_⟩
  intro hd
  unfold pileupOf toU32
  rw [hd]
  rfl

theorem C8_nonnull_ignores_sentinel_witness :
    Pileups.next ⟨some [], 0, 0, -1⟩ = some (Except.ok (pileupOf ⟨some [], 0, 0, -1⟩)) ∧
    (pileupOf ⟨some [], 0, 0, -1⟩).depth = 4294967295 := by
  have h := C8_nonnull_ignores_sentinel ⟨some [], 0, 0, -1⟩ [] rfl
  exact ⟨h.1, h.2 rfl⟩

/-- C9: on a successful pull the three i32 slot values are reinterpreted
modulo `2^32` with no validation: a negative written value `v` makes the
corresponding accessor return `v + 2^32`. -/
theorem C9_negative_wraps (e : EngineOut) (recs : List Pileup1)
    (h : e.ptr = some recs) (hw : e.wf) :
    Pileups.next e = some (Except.ok (pileupOf e)) ∧
    (e.tid < 0 → ((pileupOf e).tid : Int) = e.tid + 4294967296) ∧
    (e.pos < 0 → ((pileupOf e).pos : Int) = e.pos + 4294967296) ∧
    (e.depth < 0 → ((pileupOf e).depth : Int) = e.depth + 4294967296) := by
  obtain ⟨ht, hp, hd⟩ := hw
  unfold i32Wf at ht hp hd
  refine ⟨next_of_ptr_some e recs h, ?_, ?_, ?_⟩ <;>
    · intro hneg
      unfold pileupOf toU32
      simp only
      omega

theorem C9_negative_wraps_witness :
    Pileups.next ⟨some [], -3, -7, -2⟩ = some (Except.ok (pileupOf ⟨some [], -3, -7, -2⟩)) ∧
    ((pileupOf ⟨some [], -3, -7, -2⟩).tid : Int) = -3 + 4294967296 ∧
    ((pileupOf ⟨some [], -3, -7, -2⟩).pos : Int) = -7 + 4294967296 ∧
    ((pileupOf ⟨some [], -3, -7, -2⟩).depth : Int) = -2 + 4294967296 := by
  have h := C9_negative_wraps ⟨some [], -3, -7, -2⟩ [] rfl
    (by unfold EngineOut.wf i32Wf; exact ⟨by decide, by decide, by decide⟩)
  exact ⟨h.1, h.2.1 (by decide), h.2.2.1 (by decide), h.2.2.2 (by decide)⟩

/-- C2: teardown (`Drop`) performs exactly two engine calls, reset then
destroy, once each, immediately at the end of the trace — for every exit path,
i.e. after any number `m` of pulls (normal exhaustion, error, or early
abandonment), Rust running `drop` exactly once at scope exit. -/
theorem C2_teardown (m : Nat) :
    (runTrace m).count EngineCall.reset = 1 ∧
    (runTrace m).count EngineCall.destroy = 1 ∧
    (runTrace m).drop m = [EngineCall.reset, EngineCall.destroy] := by
  induction m with
  | zero => exact ⟨rfl, rfl, rfl⟩
  | succ n ih =>
    have h1 : runTrace (n + 1) = EngineCall.auto :: runTrace n := by
      unfold runTrace pullTrace
      rw [List.replicate_succ]
      rfl
    rw [h1]
    refine ⟨?_, ?_, ?_⟩
    · rw [List.count_cons, ih.1]
      decide
    · rw [List.count_cons, ih.2.1]
      decide
    · rw [List.drop_succ_cons]
      exact ih.2.2

/-- C3 counterexample: the wrapper keeps no terminal state, so a pull after
the error pull re-invokes the engine and mirrors its response.  With engine
responses (column, error sentinel, column), pull 3 — the pull after the error
at k = 2 — yields `Some(Ok(..))`, not end-of-data. -/
theorem C3_counterexample :
    pullsOut [⟨some [], 1, 2, 3⟩, ⟨none, 0, 0, -1⟩, ⟨some [], 1, 2, 3⟩] =
      [some (Except.ok ⟨[], 3, 1, 2⟩), some (Except.error PileupError.Some),
        some (Except.ok ⟨[], 3, 1, 2⟩)] ∧
    some (Except.ok (⟨[], 3, 1, 2⟩ : Pileup)) ≠ (none : Option (Except PileupError Pileup)) :=
  ⟨rfl, fun h => Option.noConfusion h⟩

/-- C3 (amended): if the engine's responses 1..k-1 are non-null and response k
is the error sentinel (null pointer, depth -1), then pulls 1..k-1 yield `Ok`
columns in order and pull k yields the single defined error kind; the wrapper
keeps no terminal state, so every later pull again invokes the engine's
advance and yields exactly what the engine's later responses dictate. -/
theorem C3_error_at_k (pre : List EngineOut) (er : EngineOut) (rest : List EngineOut)
    (hpre : ∀ e ∈ pre, e.ptr ≠ none) (h1 : er.ptr = none) (h2 : er.depth = -1) :
    pullsOut (pre ++ er :: rest) =
      pre.map (fun e => some (Except.ok (pileupOf e))) ++
        some (Except.error PileupError.Some) :: rest.map Pileups.next := by
  unfold pullsOut
  rw [List.map_append, List.map_cons, map_next_of_ptr_ne_none pre hpre]
  have he : Pileups.next er = some (Except.error PileupError.Some) := by
    unfold Pileups.next
    rw [h1]
    simp [h2]
  rw [he]

theorem C3_error_at_k_witness :
    pullsOut [⟨some [], 1, 2, 3⟩, ⟨none, 0, 0, -1⟩] =
      [some (Except.ok (pileupOf ⟨some [], 1, 2, 3⟩)),
        some (Except.error PileupError.Some)] :=
  C3_error_at_k [⟨some [], 1, 2, 3⟩] ⟨none, 0, 0, -1⟩ []
    (by intro e he; rw [List.mem_singleton] at he; subst he; intro hc; exact Option.noConfusion hc)
    rfl rfl

/-- C6 counterexample: `set_max_depth` casts its u32 argument with `as i32`,
so at k = 2^32 - 1 the engine receives -1, not the exact value k. -/
theorem C6_counterexample :
    (Pileups.set_max_depth ⟨0⟩ 4294967295).2 = [EngineCall.setMaxCnt (-1)] ∧
    EngineCall.setMaxCnt (-1) ≠ EngineCall.setMaxCnt 4294967295 := by
  refine ⟨by decide, by decide⟩

/-- C6 (amended): `set_max_depth(k)` makes exactly one engine call and leaves
the wrapper state unchanged; the value passed is k reinterpreted as a signed
32-bit integer (`depth as i32`): exactly k when k < 2^31, k - 2^32 otherwise. -/
theorem C6_set_max_depth (s : Pileups) (k : Nat) (hk : k < 4294967296) :
    (s.set_max_depth k).1 = s ∧
    (s.set_max_depth k).2 = [EngineCall.setMaxCnt (toI32 k)] ∧
    (k < 2147483648 → toI32 k = (k : Int)) ∧
    (2147483648 ≤ k → toI32 k = (k : Int) - 4294967296) := by
  refine ⟨rfl, rfl, ?_, ?_⟩ <;>
    · intro h
      unfold toI32
      split_ifs with hs <;> omega

theorem C6_set_max_depth_witness :
    (Pileups.set_max_depth ⟨0⟩ 5).1 = (⟨0⟩ : Pileups) ∧
    (Pileups.set_max_depth ⟨0⟩ 5).2 = [EngineCall.setMaxCnt (toI32 5)] := by
  have h := C6_set_max_depth ⟨0⟩ 5 (by decide)
  exact ⟨h.1, h.2.1⟩

/-- C7: if the engine legitimately produces N columns (non-null responses) and
then signals end-of-data (null, depth ≠ -1), pulling N+1 times yields the N
columns as `Ok`, in the engine's order, followed by exactly one end-of-data
and no error; and since each yielded column is built from the engine response
of the same rank (no reordering or buffering), engine outputs monotonically
non-decreasing by (tid, pos) yield monotonically non-decreasing columns. -/
theorem C7_in_order (pre : List EngineOut) (fe : EngineOut)
    (hpre : ∀ e ∈ pre, e.ptr ≠ none)
    (hfe : fe.ptr = none) (hd : fe.depth ≠ -1) :
    pullsOut (pre ++ [fe]) =
      pre.map (fun e => some (Except.ok (pileupOf e))) ++ [none] ∧
    ((∀ e ∈ pre, 0 ≤ e.tid ∧ e.tid < 4294967296 ∧ 0 ≤ e.pos ∧ e.pos < 4294967296) →
      List.Chain' pairLeInt (pre.map (fun e => (e.tid, e.pos))) →
      List.Chain' pairLeNat (pre.map (fun e => ((pileupOf e).tid, (pileupOf e).pos)))) := by
  constructor
  · unfold pullsOut
    rw [List.map_append, map_next_of_ptr_ne_none pre hpre]
    have he : Pileups.next fe = none := by
      unfold Pileups.next
      rw [hfe]
      simp [hd]
    rw [List.map_singleton, he]
  · intro hwf hmono
    have h := chain_pairLe_toU32 pre hwf hmono
    simpa [pileupOf] using h

theorem C7_in_order_witness :
    pullsOut [⟨some [], 0, 5, 1⟩, ⟨some [], 0, 9, 2⟩, ⟨none, 0, 0, 0⟩] =
      [some (Except.ok (pileupOf ⟨some [], 0, 5, 1⟩)),
        some (Except.ok (pileupOf ⟨some [], 0, 9, 2⟩)), none] ∧
    List.Chain' pairLeNat
      [((pileupOf ⟨some [], 0, 5, 1⟩).tid, (pileupOf ⟨some [], 0, 5, 1⟩).pos),
        ((pileupOf ⟨some [], 0, 9, 2⟩).tid, (pileupOf ⟨some [], 0, 9, 2⟩).pos)] := by
  have h := C7_in_order [⟨some [], 0, 5, 1⟩, ⟨some [], 0, 9, 2⟩] ⟨none, 0, 0, 0⟩
    (by intro e he; fin_cases he <;> decide) rfl (by decide)
  refine ⟨h.1, h.2 (by intro e he; fin_cases he <;> decide) ?_⟩
  simp only [List.map_cons, List.map_nil, List.chain'_cons, List.chain'_singleton, and_true]
  decide

end RustHtslib
